/-
Verification of the mouse-humanizer repository's motion and typing engine.

The definitions below are shallow embeddings of the Python sources:
  * `MOUSE_MAIN_LINUX/humancursor/utilities/web_adjuster.py`
    (`WebAdjuster._execute_web_movement`, `WebAdjuster._generate_human_curve`)
  * `Keyboard_humanizer/core/humanizer.py` (`KeyboardHumanizer`)
Real-valued coordinates are embedded as rationals; Python's `int(...)`
truncation toward zero is `ratTrunc`; Python's `round` is Mathlib `round`.
Definitions whose source file is absent from the repository snapshot are
marked `Modelled from the spec:` in their doc comment.
-/
import Mathlib

namespace MouseHumanizer

/-- Python `int(q)`: truncation toward zero. -/
def ratTrunc (q : ℚ) : ℤ := if 0 ≤ q then ⌊q⌋ else ⌈q⌉

/-- State of the delta-accumulation loop in
`WebAdjuster._execute_web_movement` (web_adjuster.py lines 229-287):
`extra_numbers` (carried fractional remainders), `total_offset`
(sum of emitted integer offsets), `current_origin`, and the ordered
list of emitted integer `(dx, dy)` movements. -/
structure MoveState where
  exX : ℚ
  exY : ℚ
  totX : ℤ
  totY : ℤ
  curX : ℚ
  curY : ℚ
  moves : List (ℤ × ℤ)
  deriving Repr, DecidableEq

/-- One iteration of the `for i, point in enumerate(human_curve.points)`
loop of `WebAdjuster._execute_web_movement` (lines 241-267): the hop's
fractional parts are added to `extra_numbers`; when a carried remainder
exceeds 1 in magnitude it is flushed as an extra integer movement
(the two `elif` branches of the source are kept even though the first
`or` condition subsumes them); finally the truncated hop itself is
emitted and `current_origin` advances to the exact point.  The common
tail of the source loop body (emission of `(int(x_offset), int(y_offset))`
and the `current_origin`/`total_offset` update) is written out in each
branch of the record literal. -/
def moveStep (s : MoveState) (p : ℚ × ℚ) : MoveState :=
  let xo := p.1 - s.curX
  let yo := p.2 - s.curY
  let ex := s.exX + (xo - ratTrunc xo)
  let ey := s.exY + (yo - ratTrunc yo)
  if 1 < |ex| ∨ 1 < |ey| then
    { exX := ex - ratTrunc ex, exY := ey - ratTrunc ey,
      totX := s.totX + ratTrunc ex + ratTrunc xo,
      totY := s.totY + ratTrunc ey + ratTrunc yo,
      curX := p.1, curY := p.2,
      moves := s.moves ++ [(ratTrunc ex, ratTrunc ey)] ++ [(ratTrunc xo, ratTrunc yo)] }
  else if 1 < |ex| then
    { exX := ex - ratTrunc ex, exY := ey,
      totX := s.totX + ratTrunc ex + ratTrunc xo,
      totY := s.totY + ratTrunc yo,
      curX := p.1, curY := p.2,
      moves := s.moves ++ [(ratTrunc ex, 0)] ++ [(ratTrunc xo, ratTrunc yo)] }
  else if 1 < |ey| then
    { exX := ex, exY := ey - ratTrunc ey,
      totX := s.totX + ratTrunc xo,
      totY := s.totY + ratTrunc ey + ratTrunc yo,
      curX := p.1, curY := p.2,
      moves := s.moves ++ [(0, ratTrunc ey)] ++ [(ratTrunc xo, ratTrunc yo)] }
  else
    { exX := ex, exY := ey,
      totX := s.totX + ratTrunc xo,
      totY := s.totY + ratTrunc yo,
      curX := p.1, curY := p.2,
      moves := s.moves ++ [(ratTrunc xo, ratTrunc yo)] }

/-- The trailing remainder flush of `_execute_web_movement`
(lines 277-282): when a carried remainder exceeds 0.5 in magnitude,
emit `int(extra + 0.5)` for both axes as one last movement. -/
def finalFlush (s : MoveState) : MoveState :=
  if 1/2 < |s.exX| ∨ 1/2 < |s.exY| then
    { s with
      totX := s.totX + ratTrunc (s.exX + 1/2)
      totY := s.totY + ratTrunc (s.exY + 1/2)
      moves := s.moves ++ [(ratTrunc (s.exX + 1/2), ratTrunc (s.exY + 1/2))] }
  else s

/-- Initial loop state of `_execute_web_movement`: zero remainders, zero
total offset, `current_origin = origin`, no movements yet. -/
def initMoveState (origin : ℚ × ℚ) : MoveState :=
  { exX := 0, exY := 0, totX := 0, totY := 0,
    curX := origin.1, curY := origin.2, moves := [] }

/-- Function `WebAdjuster._execute_web_movement`, delta-accumulation part: fold the
loop body over the trajectory points, then apply the final remainder
flush.  The function's reported final position is
`(origin.1 + totX, origin.2 + totY)`. -/
def executeWebMovement (origin : ℚ × ℚ) (points : List (ℚ × ℚ)) : MoveState :=
  finalFlush (points.foldl moveStep (initMoveState origin))

/-- Sum of the x components of the emitted movements. -/
def sumDx (moves : List (ℤ × ℤ)) : ℤ := (moves.map Prod.fst).sum

/-- Sum of the y components of the emitted movements. -/
def sumDy (moves : List (ℤ × ℤ)) : ℤ := (moves.map Prod.snd).sum

/-- Invariant of the delta-accumulation loop: the integer total plus the
carried remainder equals the exact displacement from the origin to
`current_origin`, carried remainders stay within `[-1, 1]`, and the
emitted movements sum to the recorded totals. -/
def MoveInv (origin : ℚ × ℚ) (s : MoveState) : Prop :=
  (s.totX : ℚ) + s.exX = s.curX - origin.1 ∧
  (s.totY : ℚ) + s.exY = s.curY - origin.2 ∧
  |s.exX| ≤ 1 ∧ |s.exY| ≤ 1 ∧
  sumDx s.moves = s.totX ∧ sumDy s.moves = s.totY

lemma sumDx_append (a b : List (ℤ × ℤ)) : sumDx (a ++ b) = sumDx a + sumDx b := by
  simp [sumDx]

lemma sumDy_append (a b : List (ℤ × ℤ)) : sumDy (a ++ b) = sumDy a + sumDy b := by
  simp [sumDy]

/-- Python truncation differs from the argument by less than one. -/
lemma abs_sub_ratTrunc_lt_one (q : ℚ) : |q - ratTrunc q| < 1 := by
  rw [ratTrunc]
  split_ifs with h
  · have h1 := Int.floor_le q
    have h2 := Int.lt_floor_add_one q
    rw [abs_lt]
    constructor <;> linarith
  · have h1 := Int.le_ceil q
    have h2 := Int.ceil_lt_add_one q
    rw [abs_lt]
    constructor <;> linarith

lemma moveInv_init (origin : ℚ × ℚ) : MoveInv origin (initMoveState origin) := by
  simp [MoveInv, initMoveState, sumDx, sumDy]

lemma moveInv_step (origin : ℚ × ℚ) (s : MoveState) (p : ℚ × ℚ)
    (h : MoveInv origin s) : MoveInv origin (moveStep s p) := by
  obtain ⟨hx, hy, hbx, hby, hsx, hsy⟩ := h
  have hfx := abs_sub_ratTrunc_lt_one (p.1 - s.curX)
  have hfy := abs_sub_ratTrunc_lt_one (p.2 - s.curY)
  have hgx := abs_sub_ratTrunc_lt_one (s.exX + ((p.1 - s.curX) - ratTrunc (p.1 - s.curX)))
  have hgy := abs_sub_ratTrunc_lt_one (s.exY + ((p.2 - s.curY) - ratTrunc (p.2 - s.curY)))
  rw [moveStep]
  split_ifs with h1 h2 h3
  · refine ⟨?_, ?_, le_of_lt hgx, le_of_lt hgy, ?_, ?_⟩
    · push_cast; linarith
    · push_cast; linarith
    · simp [sumDx_append, sumDx] at hsx ⊢
      omega
    · simp [sumDy_append, sumDy] at hsy ⊢
      omega
  · exact absurd (Or.inl h2) h1
  · exact absurd (Or.inr h3) h1
  · push_neg at h1
    refine ⟨?_, ?_, h1.1, h1.2, ?_, ?_⟩
    · push_cast; linarith
    · push_cast; linarith
    · simp [sumDx_append, sumDx] at hsx ⊢
      omega
    · simp [sumDy_append, sumDy] at hsy ⊢
      omega

lemma moveInv_foldl (origin : ℚ × ℚ) (points : List (ℚ × ℚ)) (s : MoveState)
    (h : MoveInv origin s) : MoveInv origin (points.foldl moveStep s) := by
  induction points generalizing s with
  | nil => exact h
  | cons p t ih => exact ih _ (moveInv_step origin s p h)

/-- After folding over a non-empty trajectory, `current_origin` is the
exact last trajectory point. -/
lemma foldl_cur_eq_getLast (points : List (ℚ × ℚ)) (h : points ≠ []) (s : MoveState) :
    (points.foldl moveStep s).curX = (points.getLast h).1 ∧
    (points.foldl moveStep s).curY = (points.getLast h).2 := by
  induction points generalizing s with
  | nil => exact absurd rfl h
  | cons p t ih =>
    cases t with
    | nil =>
      constructor <;>
        · rw [List.foldl, List.foldl, List.getLast_singleton, moveStep]
          split_ifs <;> rfl
    | cons q r =>
      rw [List.foldl, List.getLast_cons (by simp)]
      exact ih (by simp) (moveStep s p)

/-- The final remainder flush emits `int(extra + 0.5)`, which stays within
one unit of the remainder it flushes, provided the remainder is in `[-1,1]`. -/
lemma ratTrunc_add_half_close (e : ℚ) (he : |e| ≤ 1) :
    |(ratTrunc (e + 1/2) : ℚ) - e| ≤ 1 := by
  rw [abs_le] at he
  rw [ratTrunc]
  split_ifs with h
  · have h1 := Int.floor_le (e + 1/2)
    have h2 := Int.lt_floor_add_one (e + 1/2)
    rw [abs_le]
    constructor <;> linarith
  · have hceil : ⌈e + 1/2⌉ = 0 := by
      have hle : ⌈e + 1/2⌉ ≤ 0 := Int.ceil_le.mpr (by push_cast; linarith)
      have hge : (0 : ℤ) ≤ ⌈e + 1/2⌉ := by
        have h3 := Int.le_ceil (e + 1/2)
        by_contra hc
        push_neg at hc
        have hc' : ⌈e + 1/2⌉ ≤ -1 := by omega
        have hc'' : ((⌈e + 1/2⌉ : ℤ) : ℚ) ≤ -1 := by exact_mod_cast hc'
        linarith
      omega
    rw [hceil]
    rw [abs_le]
    constructor <;> push_cast <;> linarith

/-- Claim C1, amended.  `WebAdjuster._execute_web_movement` carries the
fractional remainder of every hop forward, and the emitted integer
movements sum exactly to the recorded `total_offset`; the reported final
position `origin + total_offset` stays within one pixel per axis of the
trajectory's exact endpoint.  The exact no-drift equality
`sum dx = round(last.x - first.x)` claimed by the specification does not
hold (see `executeWebMovement_round_counterexample`): the trailing flush
`int(extra + 0.5)` truncates toward zero, so a final negative remainder
in `[-1, -0.5)` is dropped and a remainder of exactly `0.5` is never
flushed. -/
theorem executeWebMovement_bounded_drift (origin : ℚ × ℚ) (points : List (ℚ × ℚ))
    (h : points ≠ []) :
    sumDx (executeWebMovement origin points).moves = (executeWebMovement origin points).totX ∧
    sumDy (executeWebMovement origin points).moves = (executeWebMovement origin points).totY ∧
    |((executeWebMovement origin points).totX : ℚ) - ((points.getLast h).1 - origin.1)| ≤ 1 ∧
    |((executeWebMovement origin points).totY : ℚ) - ((points.getLast h).2 - origin.2)| ≤ 1 := by
  have hinv := moveInv_foldl origin points (initMoveState origin) (moveInv_init origin)
  have hcur := foldl_cur_eq_getLast points h (initMoveState origin)
  obtain ⟨hx, hy, hbx, hby, hsx, hsy⟩ := hinv
  rw [hcur.1] at hx
  rw [hcur.2] at hy
  rw [executeWebMovement, finalFlush]
  split_ifs with hf
  · refine ⟨?_, ?_, ?_, ?_⟩
    · rw [sumDx_append, hsx]
      simp [sumDx]
    · rw [sumDy_append, hsy]
      simp [sumDy]
    · have := ratTrunc_add_half_close (points.foldl moveStep (initMoveState origin)).exX hbx
      push_cast
      rw [show ((points.foldl moveStep (initMoveState origin)).totX : ℚ) +
          ((ratTrunc ((points.foldl moveStep (initMoveState origin)).exX + 1/2) : ℤ) : ℚ) -
          ((points.getLast h).1 - origin.1) =
          ((ratTrunc ((points.foldl moveStep (initMoveState origin)).exX + 1/2) : ℤ) : ℚ) -
          (points.foldl moveStep (initMoveState origin)).exX by linarith]
      exact this
    · have := ratTrunc_add_half_close (points.foldl moveStep (initMoveState origin)).exY hby
      push_cast
      rw [show ((points.foldl moveStep (initMoveState origin)).totY : ℚ) +
          ((ratTrunc ((points.foldl moveStep (initMoveState origin)).exY + 1/2) : ℤ) : ℚ) -
          ((points.getLast h).2 - origin.2) =
          ((ratTrunc ((points.foldl moveStep (initMoveState origin)).exY + 1/2) : ℤ) : ℚ) -
          (points.foldl moveStep (initMoveState origin)).exY by linarith]
      exact this
  · refine ⟨hsx, hsy, ?_, ?_⟩
    · rw [show ((points.foldl moveStep (initMoveState origin)).totX : ℚ) -
          ((points.getLast h).1 - origin.1) =
          -(points.foldl moveStep (initMoveState origin)).exX by linarith]
      rw [abs_neg]
      exact hbx
    · rw [show ((points.foldl moveStep (initMoveState origin)).totY : ℚ) -
          ((points.getLast h).2 - origin.2) =
          -(points.foldl moveStep (initMoveState origin)).exY by linarith]
      rw [abs_neg]
      exact hby

/-- The curve parameter set produced by `generate_random_curve_parameters`
and consumed by `HumanizeMouseTrajectory` (see `_generate_human_curve`,
web_adjuster.py lines 183-217).  The `tween` easing-function field is an
opaque function id not needed by any claim and is omitted. -/
structure CurveParams where
  offsetBoundaryX : ℚ
  offsetBoundaryY : ℚ
  knotsCount : ℕ
  distortionMean : ℚ
  distortionStDev : ℚ
  distortionFrequency : ℚ
  targetPoints : ℕ
  deriving Repr, DecidableEq

/-- Parameter post-processing in `WebAdjuster._generate_human_curve`
(web_adjuster.py lines 196-204): when `steady` is set, the offset
boundaries are overwritten with `10, 10` and the distortion triple with
`1.2, 1.2, 0.1`; when the headless Linux optimization is active,
`knots_count` is capped at 3 and `target_points` at 30.  The steady
branch never touches `knots_count` or `target_points`. -/
def generateHumanCurveParams (p : CurveParams) (steady headless : Bool) : CurveParams :=
  let p1 := if steady then
      { p with offsetBoundaryX := 10, offsetBoundaryY := 10,
               distortionMean := 6/5, distortionStDev := 6/5,
               distortionFrequency := 1/10 }
    else p
  if headless then
    { p1 with knotsCount := min p1.knotsCount 3, targetPoints := min p1.targetPoints 30 }
  else p1

/-- Clamp a sampled value into `[-bound, bound]` (bounded random offset of
spec section 4.3 step 1). -/
def clampAbs (bound v : ℚ) : ℚ := max (-bound) (min bound v)

/-- Replace the last element of a list (Python `points[-1] = ...`). -/
def setLast (d : ℚ × ℚ) (l : List (ℚ × ℚ)) : List (ℚ × ℚ) :=
  l.dropLast ++ [d]

/-- Spec section 4.3 step 5: force the first sample to equal the origin
and the last sample to equal the destination, exactly. -/
def forceEndpoints (o d : ℚ × ℚ) : List (ℚ × ℚ) → List (ℚ × ℚ)
  | [] => []
  | _ :: t => setLast d (o :: t)

/-- Modelled from the spec: `HumanizeMouseTrajectory`'s curve generation
(`humancursor/utilities/human_curve_generator.py` is absent from the
repository snapshot; only its call sites in web_adjuster.py are present).
Spec section 4.3: produce `target_points` samples along the
origin→destination line (steps 1-3, with the knot/spline perturbation
abstracted into a per-sample offset bounded by the offset boundaries,
driven by the injectable randomness streams of section 4.1); with
probability `distortion_frequency` per sample add jitter drawn from
`distortion_mean`/`distortion_st_dev`, never on the final sample
(step 4); then force the endpoints (step 5).  The degenerate
`target_points ≤ 1` case returns the single destination point
(section 4.2 edge case). -/
def trajectoryBase (origin dest : ℚ × ℚ) (p : CurveParams)
    (offRng jitRng freqRng : ℕ → ℚ) : List (ℚ × ℚ) :=
  (List.range p.targetPoints).map (fun (i : ℕ) =>
    let t : ℚ := (i : ℚ) / ((p.targetPoints : ℚ) - 1)
    let bx := origin.1 + t * (dest.1 - origin.1) +
      clampAbs p.offsetBoundaryX (offRng (2*i))
    let by' := origin.2 + t * (dest.2 - origin.2) +
      clampAbs p.offsetBoundaryY (offRng (2*i+1))
    if freqRng i < p.distortionFrequency ∧ i ≠ p.targetPoints - 1 then
      (bx + p.distortionMean + p.distortionStDev * jitRng (2*i),
       by' + p.distortionMean + p.distortionStDev * jitRng (2*i+1))
    else (bx, by'))

/-- Modelled from the spec (continued): the full generation pipeline —
resampled perturbed points, then endpoint forcing; degenerate
`target_points ≤ 1` collapses to the single destination point. -/
def generateTrajectory (origin dest : ℚ × ℚ) (p : CurveParams)
    (offRng jitRng freqRng : ℕ → ℚ) : List (ℚ × ℚ) :=
  if p.targetPoints ≤ 1 then [dest]
  else forceEndpoints origin dest (trajectoryBase origin dest p offRng jitRng freqRng)

/-- Modelled from the spec: `TypingEngine.update_fatigue`
(`Keyboard_humanizer/core/typing_engine.py` is absent from the snapshot;
humanizer.py line 131 calls `self.engine.update_fatigue(session_duration)`).
Spec section 4.5: a monotonically increasing, saturating function of the
elapsed session duration with values in `[0,1]`; section 9 leaves the
exact growth curve open, so the saturating rational curve `d / (d + 600)`
is used, clamped to `0` for non-positive elapsed time. -/
def updateFatigue (d : ℚ) : ℚ := if d ≤ 0 then 0 else d / (d + 600)

/-! Keyboard humanizer (Keyboard_humanizer/core/humanizer.py). -/

/-- Session counters of the typing engine.  Modelled from the spec:
the `TypingStats` class lives in core/typing_engine.py, which is absent
from the snapshot; spec section 3 lists the accumulated counters,
zero-initialized by the `TypingStats()` constructor. -/
structure TypingStats where
  charactersTyped : ℕ
  wordsTyped : ℕ
  errorsMade : ℕ
  correctionsMade : ℕ
  deriving Repr, DecidableEq

/-- A freshly constructed `TypingStats()` with zeroed counters. -/
def TypingStats.zeroed : TypingStats := ⟨0, 0, 0, 0⟩

/-- The engine-owned mutable state referenced by humanizer.py
(`self.engine.base_wpm`, `error_rate`, `fatigue_level`, `session_start`,
`stats`, `recent_chars`, `recent_timings`). -/
structure EngineState where
  baseWpm : ℤ
  errorRate : ℚ
  fatigueLevel : ℚ
  sessionStart : ℚ
  stats : TypingStats
  recentChars : List Char
  recentTimings : List ℚ
  deriving Repr, DecidableEq

/-- State of `KeyboardHumanizer`: its own settings (humanizer.py lines 20-25)
together with the owned engine. -/
structure HumanizerState where
  engine : EngineState
  simulateErrors : Bool
  autoCorrect : Bool
  useCopyPaste : Bool
  addThinkingPauses : Bool
  simulateFatigue : Bool
  contextAware : Bool
  deriving Repr, DecidableEq

/-- Whitespace characters recognized by Python's `str.split()` and
`str.strip()` (the ASCII whitespace set; the sources only process ASCII
text). -/
def pyIsSpace (c : Char) : Bool :=
  c == ' ' || c == '\t' || c == '\n' || c == '\r' || c == '\x0b' || c == '\x0c'

/-- Python `text.split()`: split on whitespace runs, dropping empty
words; `cur` accumulates the current word reversed. -/
def pySplitAux : List Char → List Char → List (List Char)
  | [], cur => if cur = [] then [] else [cur.reverse]
  | c :: rest, cur =>
    if pyIsSpace c then
      if cur = [] then pySplitAux rest []
      else cur.reverse :: pySplitAux rest []
    else pySplitAux rest (c :: cur)

/-- Python `text.split()` on a character list. -/
def pySplit (t : List Char) : List (List Char) := pySplitAux t []

/-- Python `text.strip()`: drop leading and trailing whitespace. -/
def pyStrip (t : List Char) : List Char :=
  ((t.dropWhile pyIsSpace).reverse.dropWhile pyIsSpace).reverse

/-- The indicator substrings of `KeyboardHumanizer._is_code_text`
(humanizer.py lines 97-101). -/
def codeIndicators : List (List Char) :=
  ["def ", "class ", "import ", "from ", "if ", "for ", "while ",
   "\x7b", "\x7d", "[", "]", "()", "=>", "==", "!=", "&&", "||",
   "function", "const", "let", "var", "return"].map String.toList

/-- The indicator substrings of `KeyboardHumanizer._is_email_text`
(lines 106-109). -/
def emailIndicators : List (List Char) :=
  ["@", "Dear", "Sincerely", "Best regards", "Hi ", "Hello",
   "Subject:", "From:", "To:", ".com", ".org", ".net"].map String.toList

/-- The indicator substrings of `KeyboardHumanizer._is_formal_text`
(lines 114-117), matched against the lowercased text. -/
def formalIndicators : List (List Char) :=
  ["furthermore", "therefore", "consequently", "moreover",
   "however", "nevertheless", "accordingly", "thus"].map String.toList

/-- Whether `needle` is a prefix of `haystack` (helper for Python's
substring operator `in`). -/
def listStartsWith : List Char → List Char → Bool
  | [], _ => true
  | _ :: _, [] => false
  | a :: as, b :: bs => a == b && listStartsWith as bs

/-- Python's substring test `needle in haystack`. -/
def containsSub (needle : List Char) : List Char → Bool
  | [] => needle.isEmpty
  | c :: rest => listStartsWith needle (c :: rest) || containsSub needle rest

/-- Embeds `KeyboardHumanizer._is_code_text` (lines 95-102). -/
def isCodeText (t : List Char) : Bool :=
  codeIndicators.any (fun ind => containsSub ind t)

/-- Embeds `KeyboardHumanizer._is_email_text` (lines 104-110). -/
def isEmailText (t : List Char) : Bool :=
  emailIndicators.any (fun ind => containsSub ind t)

/-- Python `text.lower()` on a character list. -/
def toLowerText (t : List Char) : List Char := t.map Char.toLower

/-- Embeds `KeyboardHumanizer._is_formal_text` (lines 112-118). -/
def isFormalText (t : List Char) : Bool :=
  formalIndicators.any (fun ind => containsSub ind (toLowerText t))

/-- Embeds `KeyboardHumanizer._has_repetitive_content` (lines 120-126):
fewer than 5 whitespace-separated words is never repetitive; otherwise
repetitive iff `len(set(words)) / len(words) < 0.7`. -/
def hasRepetitiveContent (t : List Char) : Bool :=
  let words := pySplit t
  if words.length < 5 then false
  else decide (((words.dedup.length : ℚ) / (words.length : ℚ)) < 7/10)

/-- Embeds `KeyboardHumanizer._adapt_to_context` (lines 76-93): mutate the
engine's base settings in place depending on the text classification. -/
def adaptToContext (text : List Char) (s : HumanizerState) : HumanizerState :=
  if isCodeText text then
    { s with engine := { s.engine with
        baseWpm := ratTrunc ((s.engine.baseWpm : ℚ) * (4/5)),
        errorRate := s.engine.errorRate * (7/10) } }
  else if isEmailText text then
    { s with useCopyPaste := true }
  else if isFormalText text then
    { s with engine := { s.engine with
        baseWpm := ratTrunc ((s.engine.baseWpm : ℚ) * (9/10)),
        errorRate := s.engine.errorRate * (4/5) } }
  else if hasRepetitiveContent text then
    { s with
      useCopyPaste := true,
      engine := { s.engine with
        baseWpm := ratTrunc ((s.engine.baseWpm : ℚ) * (6/5)) } }
  else s

/-- Embeds `KeyboardHumanizer._update_fatigue` (lines 128-131): recompute the
engine's fatigue level from the elapsed session duration. -/
def updateFatigueOp (now : ℚ) (s : HumanizerState) : HumanizerState :=
  { s with engine := { s.engine with
      fatigueLevel := updateFatigue (now - s.engine.sessionStart) } }

/-- The sentence-terminating characters of
`KeyboardHumanizer._split_into_sentences` (`char in '.!?'`, line 162). -/
def isTerminalPunct (c : Char) : Bool := c == '.' || c == '!' || c == '?'

/-- The character loop of `KeyboardHumanizer._split_into_sentences`
(lines 155-169): accumulate characters; on a terminal punctuation
character with stripped length above 3, emit the stripped fragment;
append the stripped non-empty remainder at the end. -/
def splitSentencesAux : List Char → List Char → List (List Char) → List (List Char)
  | [], cur, acc => if pyStrip cur = [] then acc else acc ++ [pyStrip cur]
  | c :: rest, cur, acc =>
    if isTerminalPunct c && decide (3 < (pyStrip (cur ++ [c])).length) then
      splitSentencesAux rest [] (acc ++ [pyStrip (cur ++ [c])])
    else splitSentencesAux rest (cur ++ [c]) acc

/-- Embeds `KeyboardHumanizer._split_into_sentences`: the loop, with the
`sentences if sentences else [text]` fallback. -/
def splitIntoSentences (t : List Char) : List (List Char) :=
  let s := splitSentencesAux t [] []
  if s = [] then [t] else s

/-- Embeds `KeyboardHumanizer._get_thinking_pause` (lines 171-175): with
probability 0.15 return a uniform pause in `[0.3, 1.5]` (expressed as
`0.3 + 1.2 * r2` for the uniform draw `r2`), else 0.  The function only
returns the delay value; it performs no sleep. -/
def getThinkingPause (r1 r2 : ℚ) : ℚ :=
  if r1 < 3/20 then 3/10 + r2 * (6/5) else 0

/-- Observable effects of `_type_text_naturally`: blocking sleeps
(`time.sleep`, line 143), sentence typing delegated to the engine
(line 146), and spontaneous corrections (line 151). -/
inductive TypeEvent where
  | sleep (duration : ℚ)
  | typeSentence (sentence : List Char)
  | correction (sentence : List Char)
  deriving Repr, DecidableEq

/-- Lines 140-143 of `_type_text_naturally`: between sentences
(`i > 0`) with thinking pauses enabled, draw a pause via
`_get_thinking_pause` and, when it is positive, block in `time.sleep`;
returns the advanced randomness index and the emitted sleep events. -/
def pauseEvents (addPauses : Bool) (rng : ℕ → ℚ) (i k : ℕ) : ℕ × List TypeEvent :=
  if 0 < i ∧ addPauses then
    if rng k < 3/20 then
      (k + 2,
        if 0 < getThinkingPause (rng k) (rng (k+1)) then
          [.sleep (getThinkingPause (rng k) (rng (k+1)))]
        else [])
    else (k + 1, [])
  else (k, [])

/-- The sentence loop of `KeyboardHumanizer._type_text_naturally`
(lines 133-153), threading the engine's typing stats, an index `k` into
the randomness stream `rng`, and the sentence index `i`.  The engine
call `self.engine.type_text(sentence, use_copy_paste=...)` lives in the
absent typing_engine.py and is abstracted as the `engineType` argument,
which per spec section 4.7 updates the engine's `TypingStats` and
reports success (`.ok true`), failure (`.ok false`, which makes the loop
return False immediately) or an exception (`.error`, which propagates);
`engine.add_spontaneous_correction` is likewise abstracted as an emitted
`TypeEvent.correction`.  A sleep is emitted only between sentences
(`i > 0`), when thinking pauses are enabled and the drawn pause is
positive. -/
def typeTextNaturallyAux
    (addPauses useCP : Bool)
    (engineType : TypingStats → Bool → List Char → TypingStats × Except Unit Bool)
    (rng : ℕ → ℚ) :
    List (List Char) → ℕ → ℕ → TypingStats →
    TypingStats × List TypeEvent × Except Unit Bool
  | [], _, _, st => (st, [], .ok true)
  | sent :: rest, i, k, st =>
    let pk : ℕ × List TypeEvent := pauseEvents addPauses rng i k
    match engineType st useCP sent with
    | (st1, .error e) => (st1, pk.2 ++ [.typeSentence sent], .error e)
    | (st1, .ok false) => (st1, pk.2 ++ [.typeSentence sent], .ok false)
    | (st1, .ok true) =>
      let corr : List TypeEvent :=
        if rng pk.1 < 1/20 ∧ 10 < sent.length then [.correction sent] else []
      let rest' := typeTextNaturallyAux addPauses useCP engineType rng rest (i+1) (pk.1+1) st1
      (rest'.1, pk.2 ++ [.typeSentence sent] ++ corr ++ rest'.2.1, rest'.2.2)

/-- Embeds `KeyboardHumanizer._type_text_naturally` over a whole text. -/
def typeTextNaturally (addPauses useCP : Bool)
    (engineType : TypingStats → Bool → List Char → TypingStats × Except Unit Bool)
    (rng : ℕ → ℚ) (text : List Char) (st : TypingStats) :
    TypingStats × List TypeEvent × Except Unit Bool :=
  typeTextNaturallyAux addPauses useCP engineType rng (splitIntoSentences text) 0 0 st

/-- The keyword overrides accepted by `KeyboardHumanizer.type_text`
(lines 44-53). -/
structure Kwargs where
  simulateErrors : Option Bool
  useCopyPaste : Option Bool
  addThinkingPauses : Option Bool
  speedMultiplier : Option ℚ
  deriving Repr, DecidableEq

/-- A `type_text` call without keyword overrides. -/
def Kwargs.noOverrides : Kwargs := ⟨none, none, none, none⟩

/-- Lines 44-53 of `type_text`: apply the temporary settings, including
`base_wpm = int(base_wpm * speed_multiplier)`. -/
def applyOverrides (kw : Kwargs) (s : HumanizerState) : HumanizerState :=
  { s with
    simulateErrors := kw.simulateErrors.getD s.simulateErrors,
    useCopyPaste := kw.useCopyPaste.getD s.useCopyPaste,
    addThinkingPauses := kw.addThinkingPauses.getD s.addThinkingPauses,
    engine := match kw.speedMultiplier with
      | some m => { s.engine with baseWpm := ratTrunc ((s.engine.baseWpm : ℚ) * m) }
      | none => s.engine }

/-- The `finally:` block of `type_text` (lines 69-74): restore exactly the
overridden settings from the values captured before the call; run on
success, failure and exception alike. -/
def restoreOverrides (kw : Kwargs) (orig s : HumanizerState) : HumanizerState :=
  { s with
    simulateErrors :=
      if kw.simulateErrors.isSome then orig.simulateErrors else s.simulateErrors,
    useCopyPaste :=
      if kw.useCopyPaste.isSome then orig.useCopyPaste else s.useCopyPaste,
    addThinkingPauses :=
      if kw.addThinkingPauses.isSome then orig.addThinkingPauses else s.addThinkingPauses,
    engine :=
      if kw.speedMultiplier.isSome then { s.engine with baseWpm := orig.engine.baseWpm }
      else s.engine }

/-- Embeds `KeyboardHumanizer.type_text` (lines 29-74): apply overrides, adapt to
context when `context_aware`, update fatigue when `simulate_fatigue`,
run `_type_text_naturally`, and restore the overridden settings in the
`finally:` block whatever the outcome. -/
def typeText (kw : Kwargs)
    (engineType : TypingStats → Bool → List Char → TypingStats × Except Unit Bool)
    (rng : ℕ → ℚ) (now : ℚ) (text : List Char) (s : HumanizerState) :
    HumanizerState × List TypeEvent × Except Unit Bool :=
  let s1 := applyOverrides kw s
  let s2 := if s1.contextAware then adaptToContext text s1 else s1
  let s3 := if s2.simulateFatigue then updateFatigueOp now s2 else s2
  let r := typeTextNaturally s3.addThinkingPauses s3.useCopyPaste engineType rng text
    s3.engine.stats
  let s4 := { s3 with engine := { s3.engine with stats := r.1 } }
  (restoreOverrides kw s s4, r.2.1, r.2.2)

/-- Embeds `KeyboardHumanizer.reset_session` (lines 181-188): fresh zeroed
stats, `session_start = time.time()`, `fatigue_level = 0.0`, cleared
recent-characters and recent-timings buffers. -/
def resetSession (now : ℚ) (s : HumanizerState) : HumanizerState :=
  { s with engine := { s.engine with
      stats := TypingStats.zeroed,
      sessionStart := now,
      fatigueLevel := 0,
      recentChars := [],
      recentTimings := [] } }

/-- The settings that `KeyboardHumanizer.configure` (lines 190-197) may
set: `setattr(self, key, value)` runs for every key passing
`hasattr(self, key)`, which holds for all seven data attributes
installed by `__init__` — the six boolean toggles and the `engine`
object itself, so a caller can replace the whole engine (and with it the
fatigue level, stats and session start).  Keys naming bound methods also
pass `hasattr` but overwriting a method is not state of this model and
is omitted. -/
structure ConfigKwargs where
  engine : Option EngineState
  simulateErrors : Option Bool
  autoCorrect : Option Bool
  useCopyPaste : Option Bool
  addThinkingPauses : Option Bool
  simulateFatigue : Option Bool
  contextAware : Option Bool
  deriving Repr, DecidableEq

/-- Embeds `KeyboardHumanizer.configure`. -/
def configure (kw : ConfigKwargs) (s : HumanizerState) : HumanizerState :=
  { engine := kw.engine.getD s.engine,
    simulateErrors := kw.simulateErrors.getD s.simulateErrors,
    autoCorrect := kw.autoCorrect.getD s.autoCorrect,
    useCopyPaste := kw.useCopyPaste.getD s.useCopyPaste,
    addThinkingPauses := kw.addThinkingPauses.getD s.addThinkingPauses,
    simulateFatigue := kw.simulateFatigue.getD s.simulateFatigue,
    contextAware := kw.contextAware.getD s.contextAware }

/-- A concrete humanizer state with the defaults of
`KeyboardHumanizer.__init__` (all toggles on) and a 60-wpm engine with a
3% error rate, used by concrete runs below. -/
def demoState : HumanizerState :=
  ⟨⟨60, 3/100, 0, 0, TypingStats.zeroed, [], []⟩, true, true, true, true, true, true⟩

attribute [local semireducible] Rat.add Rat.mul Rat.sub Rat.inv

/-- Claim C1, counterexample.  The exact no-drift claim fails: for the
trajectory `[(0,0), (1.5, 0)]` starting at origin `(0,0)`, the emitted
movements sum to `1` in x, while `round(last.x - first.x) = round(1.5) = 2`.
The loop truncates the hop to `1` and carries remainder `0.5`, and the
trailing flush condition `abs(extra) > 0.5` is strict, so the half-pixel
remainder is never emitted. -/
theorem executeWebMovement_round_counterexample :
    ¬ (sumDx (executeWebMovement ((0 : ℚ), (0 : ℚ))
        [((0 : ℚ), (0 : ℚ)), ((3/2 : ℚ), (0 : ℚ))]).moves =
      round ((3/2 : ℚ) - (0 : ℚ))) := by
  have h1 : sumDx (executeWebMovement ((0 : ℚ), (0 : ℚ))
      [((0 : ℚ), (0 : ℚ)), ((3/2 : ℚ), (0 : ℚ))]).moves = 1 := by decide
  have h2 : round ((3/2 : ℚ) - (0 : ℚ)) = 2 := by norm_num [round_eq]
  omega

/-- Witness for `executeWebMovement_bounded_drift` at the concrete
trajectory `[(0,0), (1.5,0)]` from origin `(0,0)`. -/
theorem executeWebMovement_bounded_drift_witness :
    sumDx (executeWebMovement ((0 : ℚ), (0 : ℚ))
        [((0 : ℚ), (0 : ℚ)), ((3/2 : ℚ), (0 : ℚ))]).moves =
      (executeWebMovement ((0 : ℚ), (0 : ℚ))
        [((0 : ℚ), (0 : ℚ)), ((3/2 : ℚ), (0 : ℚ))]).totX ∧
    sumDy (executeWebMovement ((0 : ℚ), (0 : ℚ))
        [((0 : ℚ), (0 : ℚ)), ((3/2 : ℚ), (0 : ℚ))]).moves =
      (executeWebMovement ((0 : ℚ), (0 : ℚ))
        [((0 : ℚ), (0 : ℚ)), ((3/2 : ℚ), (0 : ℚ))]).totY ∧
    |((executeWebMovement ((0 : ℚ), (0 : ℚ))
        [((0 : ℚ), (0 : ℚ)), ((3/2 : ℚ), (0 : ℚ))]).totX : ℚ) -
      (([((0 : ℚ), (0 : ℚ)), ((3/2 : ℚ), (0 : ℚ))].getLast (by decide)).1 - (0 : ℚ))| ≤ 1 ∧
    |((executeWebMovement ((0 : ℚ), (0 : ℚ))
        [((0 : ℚ), (0 : ℚ)), ((3/2 : ℚ), (0 : ℚ))]).totY : ℚ) -
      (([((0 : ℚ), (0 : ℚ)), ((3/2 : ℚ), (0 : ℚ))].getLast (by decide)).2 - (0 : ℚ))| ≤ 1 :=
  executeWebMovement_bounded_drift ((0 : ℚ), (0 : ℚ))
    [((0 : ℚ), (0 : ℚ)), ((3/2 : ℚ), (0 : ℚ))] (by decide)

lemma forceEndpoints_spec (o d : ℚ × ℚ) (l : List (ℚ × ℚ)) (h : 2 ≤ l.length) :
    (forceEndpoints o d l).head? = some o ∧
    (forceEndpoints o d l).getLast? = some d ∧
    (forceEndpoints o d l).length = l.length := by
  cases l with
  | nil => simp at h
  | cons b bt =>
    cases bt with
    | nil => simp at h
    | cons q r =>
      refine ⟨?_, ?_, ?_⟩
      · show (setLast d (o :: q :: r)).head? = some o
        rw [setLast, List.dropLast_cons_of_ne_nil (by simp)]
        rfl
      · show (setLast d (o :: q :: r)).getLast? = some d
        rw [setLast]
        exact List.getLast?_concat _
      · show (setLast d (o :: q :: r)).length = (b :: q :: r).length
        rw [setLast]
        simp

lemma trajectoryBase_length (origin dest : ℚ × ℚ) (p : CurveParams)
    (offRng jitRng freqRng : ℕ → ℚ) :
    (trajectoryBase origin dest p offRng jitRng freqRng).length = p.targetPoints := by
  simp [trajectoryBase]

/-- Claim C2 (spec-modelled).  For `target_points ≥ 2`, the generated
trajectory has exactly `target_points` points, its first point equals the
requested origin exactly and its last point equals the requested
destination exactly, for every choice of the perturbation and jitter
streams. -/
theorem generateTrajectory_endpoints (origin dest : ℚ × ℚ) (p : CurveParams)
    (offRng jitRng freqRng : ℕ → ℚ) (h : 2 ≤ p.targetPoints) :
    (generateTrajectory origin dest p offRng jitRng freqRng).head? = some origin ∧
    (generateTrajectory origin dest p offRng jitRng freqRng).getLast? = some dest ∧
    (generateTrajectory origin dest p offRng jitRng freqRng).length = p.targetPoints := by
  rw [generateTrajectory, if_neg (by omega)]
  have hlen := trajectoryBase_length origin dest p offRng jitRng freqRng
  have hs := forceEndpoints_spec origin dest
    (trajectoryBase origin dest p offRng jitRng freqRng) (by omega)
  exact ⟨hs.1, hs.2.1, by rw [hs.2.2, hlen]⟩

/-- Witness for `generateTrajectory_endpoints` at concrete parameters with
`target_points = 5` and constant randomness streams. -/
theorem generateTrajectory_endpoints_witness :
    (generateTrajectory ((0 : ℚ), (0 : ℚ)) ((100 : ℚ), (40 : ℚ))
        ⟨20, 20, 2, 1, 1, 1/2, 5⟩ (fun _ => 7) (fun _ => 1) (fun _ => 0)).head? =
      some ((0 : ℚ), (0 : ℚ)) ∧
    (generateTrajectory ((0 : ℚ), (0 : ℚ)) ((100 : ℚ), (40 : ℚ))
        ⟨20, 20, 2, 1, 1, 1/2, 5⟩ (fun _ => 7) (fun _ => 1) (fun _ => 0)).getLast? =
      some ((100 : ℚ), (40 : ℚ)) ∧
    (generateTrajectory ((0 : ℚ), (0 : ℚ)) ((100 : ℚ), (40 : ℚ))
        ⟨20, 20, 2, 1, 1, 1/2, 5⟩ (fun _ => 7) (fun _ => 1) (fun _ => 0)).length = 5 :=
  generateTrajectory_endpoints ((0 : ℚ), (0 : ℚ)) ((100 : ℚ), (40 : ℚ))
    ⟨20, 20, 2, 1, 1, 1/2, 5⟩ (fun _ => 7) (fun _ => 1) (fun _ => 0) (by decide)

/-- Claim C3, counterexample.  The steady flag does not reduce `knots_count`
to 0-1: for parameters with 5 knots (as `generate_random_curve_parameters`
produces for long moves, spec section 4.2), the steady branch of
`_generate_human_curve` leaves `knots_count = 5`. -/
theorem steady_knots_counterexample :
    ¬ ((generateHumanCurveParams ⟨80, 60, 5, 1, 1, 1/2, 60⟩ true false).knotsCount ≤ 1) := by
  decide

/-- Claim C3, amended.  When the steady flag is set (and the headless cap is
not active), `_generate_human_curve` overwrites the offset boundaries with
the fixed values `10, 10` and the distortion triple with mean `1.2`,
standard deviation `1.2`, frequency `0.1`; `knots_count` and
`target_points` are left unchanged, so intermediate points may still
deviate from the straight origin→destination line by up to the 10-pixel
offset boundary plus distortion, not a near-zero epsilon. -/
theorem steady_params_spec (p : CurveParams) :
    (generateHumanCurveParams p true false).offsetBoundaryX = 10 ∧
    (generateHumanCurveParams p true false).offsetBoundaryY = 10 ∧
    (generateHumanCurveParams p true false).distortionMean = 6/5 ∧
    (generateHumanCurveParams p true false).distortionStDev = 6/5 ∧
    (generateHumanCurveParams p true false).distortionFrequency = 1/10 ∧
    (generateHumanCurveParams p true false).knotsCount = p.knotsCount ∧
    (generateHumanCurveParams p true false).targetPoints = p.targetPoints := by
  simp [generateHumanCurveParams]

/-- Claim C4 (spec-modelled).  The fatigue level is non-decreasing in the
elapsed session duration and always lies in `[0, 1]`. -/
theorem updateFatigue_monotone_unit :
    (∀ d1 d2 : ℚ, d1 ≤ d2 → updateFatigue d1 ≤ updateFatigue d2) ∧
    (∀ d : ℚ, 0 ≤ updateFatigue d ∧ updateFatigue d ≤ 1) := by
  have hbounds : ∀ d : ℚ, 0 ≤ updateFatigue d ∧ updateFatigue d ≤ 1 := by
    intro d
    rw [updateFatigue]
    split_ifs with h
    · norm_num
    · push_neg at h
      constructor
      · exact div_nonneg (le_of_lt h) (by linarith)
      · rw [div_le_one (by linarith)]
        linarith
  refine ⟨?_, hbounds⟩
  intro d1 d2 h12
  rw [updateFatigue, updateFatigue]
  split_ifs with h1 h2 h2
  · exact le_refl 0
  · push_neg at h2
    exact div_nonneg (le_of_lt h2) (by linarith)
  · linarith
  · push_neg at h1 h2
    rw [div_le_div_iff₀ (by linarith) (by linarith)]
    nlinarith

/-- Witness for `updateFatigue_monotone_unit` at durations 1 ≤ 2 and 5. -/
theorem updateFatigue_monotone_unit_witness :
    updateFatigue 1 ≤ updateFatigue 2 ∧
    (0 ≤ updateFatigue 5 ∧ updateFatigue 5 ≤ 1) :=
  ⟨updateFatigue_monotone_unit.1 1 2 (by norm_num),
   updateFatigue_monotone_unit.2 5⟩

/-- Claim C5, counterexample.  `reset_session` is not the only explicit
operation that resets the session state: `configure` performs
`setattr(self, key, value)` for every key passing `hasattr(self, key)`,
and `engine` is such an attribute, so `configure(engine=...)` with a
fresh engine replaces the fatigue level, stats and session start
wholesale — here a state with fatigue 1/2 and typed characters is reset
to fatigue 0, zeroed stats and session start 5 by `configure`, not by
`reset_session`. -/
theorem configure_engine_resets_counterexample :
    (configure ⟨some ⟨60, 3/100, 0, 5, TypingStats.zeroed, [], []⟩,
        none, none, none, none, none, none⟩
      ⟨⟨48, 3/100, 1/2, 1, ⟨120, 20, 3, 2⟩, [], []⟩,
        true, true, true, true, true, true⟩).engine.fatigueLevel = 0 ∧
    (configure ⟨some ⟨60, 3/100, 0, 5, TypingStats.zeroed, [], []⟩,
        none, none, none, none, none, none⟩
      ⟨⟨48, 3/100, 1/2, 1, ⟨120, 20, 3, 2⟩, [], []⟩,
        true, true, true, true, true, true⟩).engine.stats = TypingStats.zeroed ∧
    (configure ⟨some ⟨60, 3/100, 0, 5, TypingStats.zeroed, [], []⟩,
        none, none, none, none, none, none⟩
      ⟨⟨48, 3/100, 1/2, 1, ⟨120, 20, 3, 2⟩, [], []⟩,
        true, true, true, true, true, true⟩).engine.sessionStart = 5 ∧
    (⟨⟨48, 3/100, 1/2, 1, ⟨120, 20, 3, 2⟩, [], []⟩,
        true, true, true, true, true, true⟩ : HumanizerState).engine.fatigueLevel ≠ 0 := by
  refine ⟨rfl, rfl, rfl, ?_⟩
  decide

/-- Claim C5, amended.  The operation `reset_session` sets the fatigue
level to exactly 0, replaces the accumulated stats with zeroed counters,
and sets `session_start` to the current time; among the other
operations, `_adapt_to_context` leaves fatigue, session start and stats
untouched, `_update_fatigue` leaves session start and stats untouched,
and `configure` leaves the engine untouched unless it is explicitly
handed a replacement engine object through the `engine` key — in which
case it swaps the whole engine, session state included. -/
theorem resetSession_spec :
    (∀ (now : ℚ) (s : HumanizerState),
      (resetSession now s).engine.fatigueLevel = 0 ∧
      (resetSession now s).engine.stats = TypingStats.zeroed ∧
      (resetSession now s).engine.sessionStart = now) ∧
    (∀ (text : List Char) (s : HumanizerState),
      (adaptToContext text s).engine.fatigueLevel = s.engine.fatigueLevel ∧
      (adaptToContext text s).engine.sessionStart = s.engine.sessionStart ∧
      (adaptToContext text s).engine.stats = s.engine.stats) ∧
    (∀ (kw : ConfigKwargs) (s : HumanizerState),
      kw.engine = none → (configure kw s).engine = s.engine) ∧
    (∀ (kw : ConfigKwargs) (s : HumanizerState) (e : EngineState),
      kw.engine = some e → (configure kw s).engine = e) ∧
    (∀ (now : ℚ) (s : HumanizerState),
      (updateFatigueOp now s).engine.sessionStart = s.engine.sessionStart ∧
      (updateFatigueOp now s).engine.stats = s.engine.stats) := by
  refine ⟨?_, ?_, ?_, ?_, ?_⟩
  · intro now s
    exact ⟨rfl, rfl, rfl⟩
  · intro text s
    rw [adaptToContext]
    split_ifs <;> exact ⟨rfl, rfl, rfl⟩
  · intro kw s h
    rw [configure, h]
    rfl
  · intro kw s e h
    rw [configure, h]
    rfl
  · intro now s
    exact ⟨rfl, rfl⟩

/-- Witness for `resetSession_spec`: a concrete reset, a configure call
without an engine key (engine preserved), and a configure call with an
engine key (engine swapped). -/
theorem resetSession_spec_witness :
    (resetSession 7 demoState).engine.fatigueLevel = 0 ∧
    (configure ⟨none, some false, none, none, none, none, none⟩
      demoState).engine = demoState.engine ∧
    (configure ⟨some ⟨60, 3/100, 0, 5, TypingStats.zeroed, [], []⟩,
        none, none, none, none, none, none⟩ demoState).engine =
      ⟨60, 3/100, 0, 5, TypingStats.zeroed, [], []⟩ :=
  ⟨(resetSession_spec.1 7 demoState).1,
   resetSession_spec.2.2.1 ⟨none, some false, none, none, none, none, none⟩
     demoState rfl,
   resetSession_spec.2.2.2.1 ⟨some ⟨60, 3/100, 0, 5, TypingStats.zeroed, [], []⟩,
       none, none, none, none, none, none⟩ demoState
     ⟨60, 3/100, 0, 5, TypingStats.zeroed, [], []⟩ rfl⟩

/-- Claim C6.  The classifier `_has_repetitive_content` returns true iff the text has at
least 5 whitespace-separated words and the unique-to-total word ratio is
strictly below 0.7 (equivalently `10·unique < 7·total`); texts with
fewer than 5 words are never classified repetitive. -/
theorem hasRepetitiveContent_iff (t : List Char) :
    (hasRepetitiveContent t = true ↔
      5 ≤ (pySplit t).length ∧
      10 * (pySplit t).dedup.length < 7 * (pySplit t).length) ∧
    ((pySplit t).length < 5 → hasRepetitiveContent t = false) := by
  rw [hasRepetitiveContent]
  by_cases h : (pySplit t).length < 5
  · rw [if_pos h]
    constructor
    · simp
      omega
    · intro _
      rfl
  · rw [if_neg h]
    push_neg at h
    constructor
    · rw [decide_eq_true_iff]
      have hn : (0 : ℚ) < ((pySplit t).length : ℚ) := by
        have : 0 < (pySplit t).length := by omega
        exact_mod_cast this
      rw [div_lt_iff₀ hn]
      constructor
      · intro hr
        refine ⟨h, ?_⟩
        have : (10 : ℚ) * ((pySplit t).dedup.length : ℚ) <
            7 * ((pySplit t).length : ℚ) := by linarith
        exact_mod_cast this
      · intro hr
        have : (10 : ℚ) * ((pySplit t).dedup.length : ℚ) <
            7 * ((pySplit t).length : ℚ) := by exact_mod_cast hr.2
        linarith
    · intro hlt
      omega

/-- Witness for `hasRepetitiveContent_iff`: a five-word one-word-alphabet
text is repetitive; a two-word text is not. -/
theorem hasRepetitiveContent_iff_witness :
    hasRepetitiveContent ("a a a a a".toList) = true ∧
    hasRepetitiveContent ("hi there".toList) = false :=
  ⟨(hasRepetitiveContent_iff ("a a a a a".toList)).1.mpr ⟨by decide, by decide⟩,
   (hasRepetitiveContent_iff ("hi there".toList)).2 (by decide)⟩

lemma terminal_not_space (c : Char) (h : isTerminalPunct c = true) :
    pyIsSpace c = false := by
  rw [isTerminalPunct] at h
  rcases Bool.or_eq_true_iff.mp h with h | h
  · rcases Bool.or_eq_true_iff.mp h with h | h
    · rw [beq_iff_eq] at h
      subst h
      decide
    · rw [beq_iff_eq] at h
      subst h
      decide
  · rw [beq_iff_eq] at h
    subst h
    decide

lemma dropWhile_append_last (p : Char → Bool) (l : List Char) (c : Char)
    (hc : p c = false) : ∃ v, (l ++ [c]).dropWhile p = v ++ [c] := by
  induction l with
  | nil =>
    refine ⟨[], ?_⟩
    simp [List.dropWhile_cons, hc]
  | cons a as ih =>
    by_cases ha : p a
    · obtain ⟨v, hv⟩ := ih
      refine ⟨v, ?_⟩
      simp [List.dropWhile_cons, ha, hv]
    · refine ⟨a :: as, ?_⟩
      simp [List.dropWhile_cons, ha]

/-- Stripping cannot remove a trailing non-whitespace character. -/
lemma pyStrip_concat (l : List Char) (c : Char) (hc : pyIsSpace c = false) :
    ∃ v, pyStrip (l ++ [c]) = v ++ [c] := by
  obtain ⟨v, hv⟩ := dropWhile_append_last pyIsSpace l c hc
  refine ⟨v, ?_⟩
  rw [pyStrip, hv]
  rw [List.reverse_append]
  simp only [List.reverse_cons, List.reverse_nil, List.nil_append, List.singleton_append]
  rw [List.dropWhile_cons, hc]
  simp

lemma splitSentencesAux_goodFrags (cs : List Char) (cur : List Char)
    (acc : List (List Char))
    (hacc : ∀ f ∈ acc, 4 ≤ f.length ∧
      ∃ c, f.getLast? = some c ∧ isTerminalPunct c = true) :
    ∀ f ∈ (splitSentencesAux cs cur acc).dropLast,
      4 ≤ f.length ∧ ∃ c, f.getLast? = some c ∧ isTerminalPunct c = true := by
  induction cs generalizing cur acc with
  | nil =>
    intro f hf
    rw [splitSentencesAux] at hf
    split_ifs at hf with h
    · exact hacc f ((List.dropLast_sublist _).subset hf)
    · rw [List.dropLast_concat] at hf
      exact hacc f hf
  | cons c rest ih =>
    intro f hf
    rw [splitSentencesAux] at hf
    split_ifs at hf with h
    · rw [Bool.and_eq_true, decide_eq_true_iff] at h
      refine ih [] (acc ++ [pyStrip (cur ++ [c])]) ?_ f hf
      intro g hg
      rcases List.mem_append.mp hg with hg | hg
      · exact hacc g hg
      · rw [List.mem_singleton] at hg
        subst hg
        obtain ⟨v, hv⟩ := pyStrip_concat cur c (terminal_not_space c h.1)
        refine ⟨by omega, c, ?_, h.1⟩
        rw [hv]
        exact List.getLast?_concat _
    · exact ih (cur ++ [c]) acc hacc f hf

/-- Claim C9.  The function `_split_into_sentences` always returns a non-empty list, and
every fragment except possibly the final one was emitted at a terminal
punctuation character: it ends in `.`, `!` or `?` and its stripped length
exceeds 3 (the remaining non-empty stripped tail, or the fallback whole
text, can only be the final fragment). -/
theorem splitIntoSentences_spec (t : List Char) :
    splitIntoSentences t ≠ [] ∧
    ∀ f ∈ (splitIntoSentences t).dropLast,
      4 ≤ f.length ∧ ∃ c, f.getLast? = some c ∧ isTerminalPunct c = true := by
  rw [splitIntoSentences]
  by_cases h : splitSentencesAux t [] [] = []
  · rw [if_pos h]
    refine ⟨by simp, ?_⟩
    intro f hf
    simp at hf
  · rw [if_neg h]
    exact ⟨h, splitSentencesAux_goodFrags t [] [] (by simp)⟩

/-- Witness for `splitIntoSentences_spec` on the text
`"Okay then. Sure."`, whose first fragment `"Okay then."` is terminated
by a period and longer than 3 characters. -/
theorem splitIntoSentences_spec_witness :
    splitIntoSentences ("Okay then. Sure.".toList) ≠ [] ∧
    (4 ≤ ("Okay then.".toList).length ∧
      ∃ c, ("Okay then.".toList).getLast? = some c ∧ isTerminalPunct c = true) :=
  ⟨(splitIntoSentences_spec ("Okay then. Sure.".toList)).1,
   (splitIntoSentences_spec ("Okay then. Sure.".toList)).2
     ("Okay then.".toList) (by decide)⟩

lemma pauseEvents_sleep (addPauses : Bool) (rng : ℕ → ℚ) (i k : ℕ) (d : ℚ)
    (h : TypeEvent.sleep d ∈ (pauseEvents addPauses rng i k).2) :
    0 < d ∧ addPauses = true := by
  rw [pauseEvents] at h
  split_ifs at h with h1 h2 h3
  · rw [List.mem_singleton] at h
    injection h with hd
    subst hd
    exact ⟨h3, h1.2⟩
  · simp at h
  · simp at h
  · simp at h

lemma typeTextNaturallyAux_sleep (addPauses useCP : Bool)
    (engineType : TypingStats → Bool → List Char → TypingStats × Except Unit Bool)
    (rng : ℕ → ℚ) (sents : List (List Char)) (i k : ℕ) (st : TypingStats) (d : ℚ)
    (h : TypeEvent.sleep d ∈
      (typeTextNaturallyAux addPauses useCP engineType rng sents i k st).2.1) :
    0 < d ∧ addPauses = true := by
  induction sents generalizing i k st with
  | nil => simp [typeTextNaturallyAux] at h
  | cons sent rest ih =>
    rw [typeTextNaturallyAux] at h
    rcases hE : engineType st useCP sent with ⟨st1, res⟩
    rw [hE] at h
    match res with
    | .error e =>
      simp only [List.mem_append, List.mem_singleton] at h
      rcases h with h | h
      · exact pauseEvents_sleep addPauses rng i k d h
      · exact absurd h (by simp)
    | .ok false =>
      simp only [List.mem_append, List.mem_singleton] at h
      rcases h with h | h
      · exact pauseEvents_sleep addPauses rng i k d h
      · exact absurd h (by simp)
    | .ok true =>
      simp only [List.mem_append, List.mem_singleton] at h
      rcases h with ((h | h) | h) | h
      · exact pauseEvents_sleep addPauses rng i k d h
      · exact absurd h (by simp)
      · split_ifs at h
        · rw [List.mem_singleton] at h
          exact absurd h (by simp)
        · simp at h
      · exact ih _ _ _ h

/-- Claim C7, amended.  The helper `_get_thinking_pause` itself only returns a delay
value, but the blocking waits between plan elements are performed inside
the engine's own `_type_text_naturally` via `time.sleep`, not by an
external executor: a sleep occurs exactly when thinking pauses are
enabled and a positive pause is drawn between sentences, and disabling
`add_thinking_pauses` removes every sleep from the run. -/
theorem typeTextNaturally_sleep_spec :
    (∀ (useCP : Bool)
       (engineType : TypingStats → Bool → List Char → TypingStats × Except Unit Bool)
       (rng : ℕ → ℚ) (text : List Char) (st : TypingStats) (d : ℚ),
       TypeEvent.sleep d ∉ (typeTextNaturally false useCP engineType rng text st).2.1) ∧
    (∀ (addPauses useCP : Bool)
       (engineType : TypingStats → Bool → List Char → TypingStats × Except Unit Bool)
       (rng : ℕ → ℚ) (text : List Char) (st : TypingStats) (d : ℚ),
       TypeEvent.sleep d ∈ (typeTextNaturally addPauses useCP engineType rng text st).2.1 →
       0 < d ∧ addPauses = true) := by
  constructor
  · intro useCP engineType rng text st d h
    have := typeTextNaturallyAux_sleep false useCP engineType rng
      (splitIntoSentences text) 0 0 st d h
    simp at this
  · intro addPauses useCP engineType rng text st d h
    exact typeTextNaturallyAux_sleep addPauses useCP engineType rng
      (splitIntoSentences text) 0 0 st d h

/-- Claim C7, counterexample.  The engine's keystroke generation does not
only return delay values: on the two-sentence text `"Okay then. Sure."`
with a randomness stream that triggers the 15% thinking-pause branch,
`_type_text_naturally` itself performs a blocking `time.sleep(0.3)`
between the sentences. -/
theorem typeTextNaturally_sleeps_counterexample :
    TypeEvent.sleep (3/10) ∈
      (typeTextNaturally true true (fun st _ _ => (st, Except.ok true)) (fun _ => 0)
        ("Okay then. Sure.".toList) TypingStats.zeroed).2.1 := by
  decide

/-- Witness for `typeTextNaturally_sleep_spec`: the sleep found in the
concrete run of `typeTextNaturally_sleeps_counterexample` is positive and
requires `add_thinking_pauses`; with pauses disabled the same run has no
sleep of duration 0.3. -/
theorem typeTextNaturally_sleep_spec_witness :
    ((0 : ℚ) < 3/10 ∧ true = true) ∧
    TypeEvent.sleep (3/10) ∉
      (typeTextNaturally false true (fun st _ _ => (st, Except.ok true)) (fun _ => 0)
        ("Okay then. Sure.".toList) TypingStats.zeroed).2.1 :=
  ⟨typeTextNaturally_sleep_spec.2 true true (fun st _ _ => (st, Except.ok true))
      (fun _ => 0) ("Okay then. Sure.".toList) TypingStats.zeroed (3/10) (by decide),
   typeTextNaturally_sleep_spec.1 true (fun st _ _ => (st, Except.ok true))
      (fun _ => 0) ("Okay then. Sure.".toList) TypingStats.zeroed (3/10)⟩

/-- Claim C8, counterexample.  Applying context modifiers during a
`type_text` call does not leave the engine's base settings at their
pre-call values: typing the code-like text `"def foo():"` with no keyword
overrides permanently drops `base_wpm` from 60 to `int(60*0.8) = 48` —
the `finally:` block restores only explicitly overridden settings. -/
theorem typeText_mutates_base_counterexample :
    (typeText Kwargs.noOverrides (fun st _ _ => (st, Except.ok true)) (fun _ => 1) 0
      ("def foo():".toList) demoState).1.engine.baseWpm ≠
    demoState.engine.baseWpm := by
  decide

/-- Claim C8, amended.  Context classification is a pure, deterministic
function of the text (each classifier is a function of the text alone),
but the context modifiers applied during `type_text` persist beyond the
call: with no keyword overrides and `context_aware` enabled, the engine's
`base_wpm`, `error_rate` and the humanizer's `use_copy_paste` after the
call are exactly the values produced by `_adapt_to_context` on the
pre-call state, not the pre-call values themselves. -/
theorem typeText_adapt_persists
    (engineType : TypingStats → Bool → List Char → TypingStats × Except Unit Bool)
    (rng : ℕ → ℚ) (now : ℚ) (text : List Char) (s : HumanizerState)
    (hca : s.contextAware = true) :
    (typeText Kwargs.noOverrides engineType rng now text s).1.engine.baseWpm =
      (adaptToContext text s).engine.baseWpm ∧
    (typeText Kwargs.noOverrides engineType rng now text s).1.engine.errorRate =
      (adaptToContext text s).engine.errorRate ∧
    (typeText Kwargs.noOverrides engineType rng now text s).1.useCopyPaste =
      (adaptToContext text s).useCopyPaste := by
  have hap : applyOverrides Kwargs.noOverrides s = s := rfl
  simp only [typeText, hap, hca, if_true]
  split_ifs with hsf <;>
    exact ⟨rfl, rfl, rfl⟩

/-- Witness for `typeText_adapt_persists` on the code-like text
`"def foo():"` from the default state. -/
theorem typeText_adapt_persists_witness :
    (typeText Kwargs.noOverrides (fun st _ _ => (st, Except.ok true)) (fun _ => 1) 0
      ("def foo():".toList) demoState).1.engine.baseWpm =
      (adaptToContext ("def foo():".toList) demoState).engine.baseWpm ∧
    (typeText Kwargs.noOverrides (fun st _ _ => (st, Except.ok true)) (fun _ => 1) 0
      ("def foo():".toList) demoState).1.engine.errorRate =
      (adaptToContext ("def foo():".toList) demoState).engine.errorRate ∧
    (typeText Kwargs.noOverrides (fun st _ _ => (st, Except.ok true)) (fun _ => 1) 0
      ("def foo():".toList) demoState).1.useCopyPaste =
      (adaptToContext ("def foo():".toList) demoState).useCopyPaste :=
  typeText_adapt_persists (fun st _ _ => (st, Except.ok true)) (fun _ => 1) 0
    ("def foo():".toList) demoState (by decide)

/-- Claim C10.  Every keyword override passed to `type_text` is restored in
the `finally:` block to its pre-call value after the call, whatever the
outcome of the typing (success, reported failure, or an exception from
the engine, all covered by the universally quantified `engineType`), and
`speed_multiplier` restores `engine.base_wpm` to its pre-call value even
though the body may have changed it again via context adaptation. -/
theorem typeText_restores_overrides (kw : Kwargs)
    (engineType : TypingStats → Bool → List Char → TypingStats × Except Unit Bool)
    (rng : ℕ → ℚ) (now : ℚ) (text : List Char) (s : HumanizerState) :
    (∀ b : Bool, kw.simulateErrors = some b →
      (typeText kw engineType rng now text s).1.simulateErrors = s.simulateErrors) ∧
    (∀ b : Bool, kw.useCopyPaste = some b →
      (typeText kw engineType rng now text s).1.useCopyPaste = s.useCopyPaste) ∧
    (∀ b : Bool, kw.addThinkingPauses = some b →
      (typeText kw engineType rng now text s).1.addThinkingPauses = s.addThinkingPauses) ∧
    (∀ m : ℚ, kw.speedMultiplier = some m →
      (typeText kw engineType rng now text s).1.engine.baseWpm = s.engine.baseWpm) := by
  refine ⟨?_, ?_, ?_, ?_⟩
  · intro b hb
    simp [typeText, restoreOverrides, hb]
  · intro b hb
    simp [typeText, restoreOverrides, hb]
  · intro b hb
    simp [typeText, restoreOverrides, hb]
  · intro m hm
    simp [typeText, restoreOverrides, hm]

/-- Witness for `typeText_restores_overrides`: all four overrides given,
with an engine call that raises — the overridden settings and the wpm are
still restored. -/
theorem typeText_restores_overrides_witness :
    (typeText ⟨some false, some true, some false, some 2⟩
      (fun st _ _ => (st, Except.error ())) (fun _ => 0) 0
      ("Hi there.".toList) demoState).1.simulateErrors = demoState.simulateErrors ∧
    (typeText ⟨some false, some true, some false, some 2⟩
      (fun st _ _ => (st, Except.error ())) (fun _ => 0) 0
      ("Hi there.".toList) demoState).1.useCopyPaste = demoState.useCopyPaste ∧
    (typeText ⟨some false, some true, some false, some 2⟩
      (fun st _ _ => (st, Except.error ())) (fun _ => 0) 0
      ("Hi there.".toList) demoState).1.addThinkingPauses = demoState.addThinkingPauses ∧
    (typeText ⟨some false, some true, some false, some 2⟩
      (fun st _ _ => (st, Except.error ())) (fun _ => 0) 0
      ("Hi there.".toList) demoState).1.engine.baseWpm = demoState.engine.baseWpm :=
  ⟨(typeText_restores_overrides ⟨some false, some true, some false, some 2⟩
      (fun st _ _ => (st, Except.error ())) (fun _ => 0) 0
      ("Hi there.".toList) demoState).1 false rfl,
   (typeText_restores_overrides ⟨some false, some true, some false, some 2⟩
      (fun st _ _ => (st, Except.error ())) (fun _ => 0) 0
      ("Hi there.".toList) demoState).2.1 true rfl,
   (typeText_restores_overrides ⟨some false, some true, some false, some 2⟩
      (fun st _ _ => (st, Except.error ())) (fun _ => 0) 0
      ("Hi there.".toList) demoState).2.2.1 false rfl,
   (typeText_restores_overrides ⟨some false, some true, some false, some 2⟩
      (fun st _ _ => (st, Except.error ())) (fun _ => 0) 0
      ("Hi there.".toList) demoState).2.2.2 2 rfl⟩

end MouseHumanizer
